import Mathlib

/-!
Verification of the monotone-polygon triangulation sweep.

Shallow embedding of src/triangulation.py.  Points carry integer
coordinates; the stack of vertex indices is a Lean list whose HEAD is the
TOP of the Python stack (Python appends/pops at the end of its list).
Python list indexing is modelled with getD and an explicit default, which
is only reachable in states the algorithm never produces; the two places
where Python raises on degenerate input (min over an empty range in
find_chains, indexing the second sweep-order element in
triangulate_x_monotone) are modelled with Option.
-/

/-- Point on the 2D plane with integer coordinates (src lines 4-10). -/
structure Point where
  x : Int
  y : Int
deriving DecidableEq

/-- Orientation of the ordered triple (p, q, r) via the cross product
(src lines 12-26): 0 collinear, 1 left turn, -1 right turn. -/
def orientation (p q r : Point) : Int :=
  let val := (q.x - p.x) * (r.y - p.y) - (q.y - p.y) * (r.x - p.x)
  if val = 0 then 0 else if val > 0 then 1 else -1

/-- Total lookup into the vertex list; every index the algorithm uses is
in bounds, the default is never reached on those. -/
def nthP (points : List Point) (i : Nat) : Point :=
  points.getD i ⟨0, 0⟩

/-- First index of minimum x, as computed by Python min(range(n), key=x)
(src line 55): scan from index 0, replace the candidate only on a
strictly smaller key, so ties keep the earliest index. -/
def argminX (points : List Point) : Nat :=
  (List.range points.length).foldl
    (fun best i => if (nthP points i).x < (nthP points best).x then i else best) 0

/-- First index of maximum x, as computed by Python max(range(n), key=x)
(src line 56): replace only on a strictly larger key. -/
def argmaxX (points : List Point) : Nat :=
  (List.range points.length).foldl
    (fun best i => if (nthP points best).x < (nthP points i).x then i else best) 0

/-- The scan of argminX truncated to the first k indices; argminX equals
argminAux at k = number of points. -/
def argminAux (points : List Point) (k : Nat) : Nat :=
  (List.range k).foldl
    (fun best i => if (nthP points i).x < (nthP points best).x then i else best) 0

/-- The scan of argmaxX truncated to the first k indices. -/
def argmaxAux (points : List Point) (k : Nat) : Nat :=
  (List.range k).foldl
    (fun best i => if (nthP points best).x < (nthP points i).x then i else best) 0

/-- The while-loop of src lines 61-65: walk forward from i modulo n,
labelling every visited index UPPER, stopping after right.  The fuel
argument only bounds the iteration count; find_chains supplies fuel n,
which is more than the number of iterations the loop performs, so the
fuel-exhausted branch is never taken there. -/
def markUpper (right n : Nat) : Nat → List String → Nat → List String
  | 0, chain, _ => chain
  | fuel + 1, chain, i =>
    if i = right then chain.set i "UPPER"
    else markUpper right n fuel (chain.set i "UPPER") ((i + 1) % n)

/-- The guarded assignment of src lines 70-71: label i LOWER unless it is
one of the two extreme indices. -/
def setLower (left right : Nat) (chain : List String) (i : Nat) : List String :=
  if i ≠ left ∧ i ≠ right then chain.set i "LOWER" else chain

/-- The while-loop of src lines 68-73: walk forward from i modulo n,
labelling LOWER except at left and right, stopping after left. -/
def markLower (left right n : Nat) : Nat → List String → Nat → List String
  | 0, chain, _ => chain
  | fuel + 1, chain, i =>
    if i = left then setLower left right chain i
    else markLower left right n fuel (setLower left right chain i) ((i + 1) % n)

/-- Chain classification (src lines 47-75).  Python raises on an empty
vertex list (min of an empty range); that is the none case. -/
def find_chains (points : List Point) : Option (List String) :=
  if points.length = 0 then none
  else
    let n := points.length
    let left := argminX points
    let right := argmaxX points
    let chain0 := List.replicate n ""
    let chain1 := markUpper right n n chain0 left
    some (markLower left right n n chain1 right)

/-- Comparator behind Python sorted(range(n), key=(x, -y)) at src line 91.
Python sorting is stable, so the result is exactly the list of indices in
increasing lexicographic order of the triple (x, -y, index); the index
component realises stability and makes the order total and antisymmetric. -/
def sortLe (points : List Point) (i j : Nat) : Bool :=
  let pi := nthP points i
  let pj := nthP points j
  if pi.x = pj.x then
    (if pi.y = pj.y then decide (i ≤ j) else decide (pj.y < pi.y))
  else decide (pi.x < pj.x)

/-- Insert into a sorted list, keeping earlier elements first on ties. -/
def insertLe (le : Nat → Nat → Bool) (x : Nat) : List Nat → List Nat
  | [] => [x]
  | y :: ys => if le x y then x :: y :: ys else y :: insertLe le x ys

/-- Stable insertion sort; with the total antisymmetric order sortLe it
produces the unique sorted permutation, the same list Python sorted
returns. -/
def sortIdx (le : Nat → Nat → Bool) : List Nat → List Nat
  | [] => []
  | x :: xs => insertLe le x (sortIdx le xs)

/-- Sweep order of src line 91: indices 0..n-1 sorted by x ascending,
then y descending, ties kept in index order. -/
def sweepOrder (points : List Point) : List Nat :=
  sortIdx (sortLe points) (List.range points.length)

/-- Popping condition of src lines 120-121: a left turn when cur is on
the UPPER chain, a right turn when cur is on the LOWER chain. -/
def popCond (points : List Point) (chain : List String) (cur a b : Nat) : Bool :=
  (chain.getD cur "" == "UPPER"
      && decide (0 < orientation (nthP points a) (nthP points b) (nthP points cur)))
    || (chain.getD cur "" == "LOWER"
      && decide (orientation (nthP points a) (nthP points b) (nthP points cur) < 0))

/-- Same-chain popping loop of src lines 115-125.  The stack head is the
Python stack top; with top b and second-from-top a, while the condition
holds the top is popped and the diagonal (cur, a) is recorded. -/
def sameChainPops (points : List Point) (chain : List String) (cur : Nat) :
    List Nat → List (Point × Point) → List Nat × List (Point × Point)
  | b :: a :: rest, dg =>
    if popCond points chain cur a b then
      sameChainPops points chain cur (a :: rest) (dg ++ [(nthP points cur, nthP points a)])
    else (b :: a :: rest, dg)
  | st, dg => (st, dg)

/-- Chain-transition emission loop of src lines 107-109: pop every stack
element but the bottom one, top first, recording a diagonal to cur. -/
def chainChangeEmit (points : List Point) (cur : Nat) :
    List Nat → List (Point × Point) → List (Point × Point)
  | v :: r :: rest, dg =>
    chainChangeEmit points cur (r :: rest) (dg ++ [(nthP points cur, nthP points v)])
  | _, dg => dg

/-- One iteration of the sweep loop, src lines 101-126.  After the
chain-transition emission Python pops the leftover bottom element and
pushes order[i-1] and cur (src lines 110-112), so the stack becomes
exactly [cur, order[i-1]] with cur on top. -/
def sweepStep (points : List Point) (chain : List String) (order : List Nat)
    (st : List Nat × List (Point × Point)) (i : Nat) : List Nat × List (Point × Point) :=
  let cur := order.getD i 0
  let top := st.1.headD 0
  if chain.getD cur "" ≠ chain.getD top "" then
    ([cur, order.getD (i - 1) 0], chainChangeEmit points cur st.1 st.2)
  else
    let r := sameChainPops points chain cur st.1 st.2
    (cur :: r.1, r.2)

/-- Final-vertex emission loop of src lines 140-142: while more than one
element remains, pop and record a diagonal from last to it. -/
def finalPops (points : List Point) (last : Nat) :
    List Nat → List (Point × Point) → List (Point × Point)
  | v :: r :: rest, dg =>
    finalPops points last (r :: rest) (dg ++ [(nthP points last, nthP points v)])
  | _, dg => dg

/-- Triangulation of an x-monotone polygon by a sweep with a stack
(src lines 77-144).  Python raises when the vertex list has fewer than
two points (find_chains on an empty list, or indexing order[1]); those
are the none cases.  The tail call before finalPops models the single
unconditional pop at src lines 135-136 (tail of the empty list is empty,
matching the guarded Python pop). -/
def triangulate_x_monotone (points : List Point) : Option (List (Point × Point)) :=
  match find_chains points with
  | none => none
  | some chain =>
    let n := points.length
    if n < 2 then none
    else
      let order := sweepOrder points
      let init : List Nat × List (Point × Point) := ([order.getD 1 0, order.getD 0 0], [])
      let res := (List.range' 2 (n - 1 - 2)).foldl (sweepStep points chain order) init
      let last := order.getD (n - 1) 0
      some (finalPops points last res.1.tail res.2)

/-- Endpoint normalisation used by the output formatter (src lines
152-157): the endpoint with smaller x, tie-broken by smaller y, first. -/
def normalizeDiag (d : Point × Point) : Point × Point :=
  if d.2.x < d.1.x ∨ (d.1.x = d.2.x ∧ d.2.y < d.1.y) then (d.2, d.1) else d

/-- The x-monotone hexagon of the concrete scenario in the spec. -/
def hexPts : List Point := [⟨0, 0⟩, ⟨1, 2⟩, ⟨3, 3⟩, ⟨5, 1⟩, ⟨4, -1⟩, ⟨2, -2⟩]

/-- Three points on one chain whose middle vertex triggers the same-chain
popping condition: orientation of ((0,0), (1,1), (2,3)) is a left turn. -/
def cexPts : List Point := [⟨0, 0⟩, ⟨1, 1⟩, ⟨2, 3⟩]

/-- Chain labels placing all three points of cexPts on the UPPER chain. -/
def cexChain : List String := ["UPPER", "UPPER", "UPPER"]

/-- Chain labels of hexPts, as find_chains computes them. -/
def hexChain : List String := ["UPPER", "UPPER", "UPPER", "UPPER", "LOWER", "LOWER"]

/-!
Helper lemmas about the emission loops.
-/

lemma chainChangeEmit_eq (P : List Point) (cur : Nat) :
    ∀ st dg, chainChangeEmit P cur st dg
      = dg ++ st.dropLast.map (fun v => (nthP P cur, nthP P v)) := by
  intro st
  induction st with
  | nil => intro dg; simp [chainChangeEmit]
  | cons v t ih =>
    intro dg
    cases t with
    | nil => simp [chainChangeEmit]
    | cons r rest =>
      rw [chainChangeEmit, ih]
      simp

lemma finalPops_eq (P : List Point) (last : Nat) :
    ∀ st dg, finalPops P last st dg
      = dg ++ st.dropLast.map (fun v => (nthP P last, nthP P v)) := by
  intro st
  induction st with
  | nil => intro dg; simp [finalPops]
  | cons v t ih =>
    intro dg
    cases t with
    | nil => simp [finalPops]
    | cons r rest =>
      rw [finalPops, ih]
      simp

lemma sameChainPops_sum (P : List Point) (C : List String) (cur : Nat) :
    ∀ st dg, (sameChainPops P C cur st dg).1.length + (sameChainPops P C cur st dg).2.length
      = st.length + dg.length := by
  intro st
  induction st with
  | nil => intro dg; simp [sameChainPops]
  | cons b t ih =>
    intro dg
    cases t with
    | nil => simp [sameChainPops]
    | cons a rest =>
      by_cases h : popCond P C cur a b
      · rw [sameChainPops, if_pos h]
        have := ih (dg ++ [(nthP P cur, nthP P a)])
        simp at this ⊢
        omega
      · rw [sameChainPops, if_neg h]

lemma sameChainPops_fst_ne_nil (P : List Point) (C : List String) (cur : Nat) :
    ∀ st dg, st ≠ [] → (sameChainPops P C cur st dg).1 ≠ [] := by
  intro st
  induction st with
  | nil => intro dg h; exact absurd rfl h
  | cons b t ih =>
    intro dg _
    cases t with
    | nil => simp [sameChainPops]
    | cons a rest =>
      by_cases h : popCond P C cur a b
      · rw [sameChainPops, if_pos h]
        exact ih (dg ++ [(nthP P cur, nthP P a)]) (by simp)
      · rw [sameChainPops, if_neg h]
        simp

lemma sameChainPops_spec (P : List Point) (C : List String) (cur : Nat) :
    ∀ (k : Nat) (st : List Nat) (dg : List (Point × Point)),
      (∀ m, m < k → m + 1 < st.length ∧ popCond P C cur (st.getD (m+1) 0) (st.getD m 0) = true) →
      ¬ (k + 1 < st.length ∧ popCond P C cur (st.getD (k+1) 0) (st.getD k 0) = true) →
      sameChainPops P C cur st dg =
        (st.drop k, dg ++ (List.range k).map (fun m => (nthP P cur, nthP P (st.getD (m+1) 0)))) := by
  intro k
  induction k with
  | zero =>
    intro st dg _ h2
    rcases st with _ | ⟨b, _ | ⟨a, rest⟩⟩
    · simp [sameChainPops]
    · simp [sameChainPops]
    · have hnp : ¬ popCond P C cur a b = true := by
        intro hc
        exact h2 ⟨by simp, by simpa using hc⟩
      rw [sameChainPops, if_neg hnp]
      simp
  | succ k ih =>
    intro st dg h1 h2
    have h0 := h1 0 (Nat.succ_pos k)
    rcases st with _ | ⟨b, _ | ⟨a, rest⟩⟩
    · simp at h0
    · simp at h0
    · have hc : popCond P C cur a b = true := by simpa using h0.2
      rw [sameChainPops, if_pos hc]
      rw [ih (a :: rest) (dg ++ [(nthP P cur, nthP P a)])]
      · simp [List.range_succ_eq_map, List.map_map, Function.comp]
      · intro m hm
        have := h1 (m + 1) (by omega)
        simpa using this
      · intro hcon
        exact h2 ⟨by simpa using hcon.1, by simpa using hcon.2⟩

/-!
Claim theorems about the orientation predicate and the three stack loops.
-/

/-- C7: for all points p, q, r, orientation(p, q, r) is the negation of
orientation(p, r, q), and orientation(p, p, r) is collinear (0). -/
theorem orientation_antisymmetry_degenerate :
    (∀ p q r : Point, orientation p q r = - orientation p r q) ∧
    (∀ p r : Point, orientation p p r = 0) := by
  constructor
  · intro p q r
    have key : ∀ a : Int,
        (if a = 0 then (0 : Int) else if a > 0 then 1 else -1)
          = -(if -a = 0 then (0 : Int) else if -a > 0 then 1 else -1) := by
      intro a
      split_ifs <;> omega
    have hsw : (r.x - p.x) * (q.y - p.y) - (r.y - p.y) * (q.x - p.x)
        = -((q.x - p.x) * (r.y - p.y) - (q.y - p.y) * (r.x - p.x)) := by ring
    simp only [orientation]
    rw [hsw]
    exact key _
  · intro p r
    simp [orientation]

/-- C2 counterexample: in the same-chain popping loop, with all of
cexPts labelled UPPER, cur = 2 and stack [1, 0] (head is the top), the
triple (points 0, points 1, points 2) is a left turn, so the top element
1 is popped; but the emitted diagonal is (points 2, points 0), joining
cur to the second-from-top element 0 which stays on the stack, not to
the popped element 1, refuting the claimed diagonal endpoint. -/
theorem same_chain_diagonal_target_cex :
    sameChainPops cexPts cexChain 2 [1, 0] [] = ([0], [(⟨2, 3⟩, ⟨0, 0⟩)]) ∧
    (sameChainPops cexPts cexChain 2 [1, 0] []).2 ≠ [(nthP cexPts 2, nthP cexPts 1)] := by
  decide

/-- C2 amended: in the same-chain case (equal labels of cur and the stack
top), the loop pops exactly the first k stack elements, where k is
determined by the first triple that fails the orientation condition or by
the stack running down to one element; the m-th pop removes stack element
m (the current top) and emits the diagonal joining cur to stack element
m+1, the element directly below the popped one, which remains on the
stack as the new top; afterwards cur is pushed. -/
theorem same_chain_step (P : List Point) (C : List String) (O : List Nat)
    (st : List Nat × List (Point × Point)) (i k : Nat)
    (hEq : C.getD (O.getD i 0) "" = C.getD (st.1.headD 0) "")
    (h1 : ∀ m, m < k → m + 1 < st.1.length ∧
        popCond P C (O.getD i 0) (st.1.getD (m+1) 0) (st.1.getD m 0) = true)
    (h2 : ¬ (k + 1 < st.1.length ∧
        popCond P C (O.getD i 0) (st.1.getD (k+1) 0) (st.1.getD k 0) = true)) :
    sweepStep P C O st i =
      (O.getD i 0 :: st.1.drop k,
        st.2 ++ (List.range k).map (fun m => (nthP P (O.getD i 0), nthP P (st.1.getD (m+1) 0)))) := by
  simp only [sweepStep]
  rw [if_neg (not_not_intro hEq), sameChainPops_spec P C (O.getD i 0) k st.1 st.2 h1 h2]

/-- Witness for C2 amended: on cexPts with stack [1, 0] and cur = 2,
k = 1 pop happens and the step yields stack [2, 0] and the single
diagonal ((2,3), (0,0)). -/
theorem same_chain_step_witness :
    sweepStep cexPts cexChain [0, 1, 2] ([1, 0], []) 2 = ([2, 0], [(⟨2, 3⟩, ⟨0, 0⟩)]) := by
  rw [same_chain_step cexPts cexChain [0, 1, 2] ([1, 0], []) 2 1
    (by decide) (by decide) (by decide)]
  decide

/-- C4: in the chain-transition case (label of cur differs from the label
of the stack top), every stack element except the bottom one is joined to
cur by a diagonal, in pop order from the top down, and the stack becomes
exactly [cur, order(i-1)] with cur on top, that is, the sweep-order
predecessor of cur below cur. -/
theorem chain_transition_step (P : List Point) (C : List String) (O : List Nat)
    (st : List Nat × List (Point × Point)) (i : Nat)
    (_hne : st.1 ≠ [])
    (hl : C.getD (O.getD i 0) "" ≠ C.getD (st.1.headD 0) "") :
    sweepStep P C O st i =
      ([O.getD i 0, O.getD (i - 1) 0],
        st.2 ++ st.1.dropLast.map (fun v => (nthP P (O.getD i 0), nthP P v))) := by
  simp only [sweepStep]
  rw [if_pos hl, chainChangeEmit_eq]

/-- Witness for C4: the first sweep iteration of the hexagon, cur = 5 on
LOWER against top 1 on UPPER: the diagonal ((2,-2), (1,2)) is emitted and
the stack becomes [5, 1]. -/
theorem chain_transition_step_witness :
    sweepStep hexPts hexChain [0, 1, 5, 2, 4, 3] ([1, 0], []) 2
      = ([5, 1], [(⟨2, -2⟩, ⟨1, 2⟩)]) := by
  rw [chain_transition_step hexPts hexChain [0, 1, 5, 2, 4, 3] ([1, 0], []) 2
    (by decide) (by decide)]
  decide

/-- C5: after the sweep loop, one element is popped from the stack with
no diagonal (the tail), then while more than one element remains each is
popped with a diagonal from the last sweep vertex to it, and the single
remaining element receives no diagonal: the emitted diagonals are exactly
those to the middle elements of the stack, stack.length - 2 of them. -/
theorem final_vertex_emission (P : List Point) (last : Nat) (stack : List Nat)
    (dg : List (Point × Point)) (h : 2 ≤ stack.length) :
    finalPops P last stack.tail dg
        = dg ++ stack.tail.dropLast.map (fun v => (nthP P last, nthP P v)) ∧
    stack.tail.dropLast.length = stack.length - 2 := by
  refine ⟨finalPops_eq P last stack.tail dg, ?_⟩
  simp
  omega

/-- Witness for C5: with stack [2, 1, 0], the top 2 is dropped silently,
one diagonal goes to 1, and the bottom 0 is left without a diagonal. -/
theorem final_vertex_emission_witness :
    finalPops cexPts 2 ([2, 1, 0] : List Nat).tail []
        = [] ++ ([2, 1, 0] : List Nat).tail.dropLast.map (fun v => (nthP cexPts 2, nthP cexPts v)) ∧
    ([2, 1, 0] : List Nat).tail.dropLast.length = ([2, 1, 0] : List Nat).length - 2 :=
  final_vertex_emission cexPts 2 [2, 1, 0] [] (by decide)

/-!
Length bookkeeping for the sweep: every loop iteration increases the sum
of stack size and diagonal count by exactly one, and the stack never
drops below two elements, so the diagonal count of the whole run is
forced independently of the geometry.
-/

lemma insertLe_length (le : Nat → Nat → Bool) (x : Nat) :
    ∀ l, (insertLe le x l).length = l.length + 1 := by
  intro l
  induction l with
  | nil => simp [insertLe]
  | cons y ys ih =>
    rw [insertLe]
    split_ifs <;> simp [ih]

lemma sortIdx_length (le : Nat → Nat → Bool) :
    ∀ l, (sortIdx le l).length = l.length := by
  intro l
  induction l with
  | nil => rfl
  | cons x xs ih => rw [sortIdx, insertLe_length, ih]; rfl

lemma sweepOrder_length (P : List Point) : (sweepOrder P).length = P.length := by
  rw [sweepOrder, sortIdx_length, List.length_range]

lemma find_chains_isSome (points : List Point) (h : points.length ≠ 0) :
    ∃ C, find_chains points = some C := by
  simp only [find_chains, if_neg h]
  exact ⟨_, rfl⟩

lemma sweepStep_inv (P : List Point) (C : List String) (O : List Nat)
    (st : List Nat × List (Point × Point)) (i : Nat) (h : 2 ≤ st.1.length) :
    2 ≤ (sweepStep P C O st i).1.length ∧
    (sweepStep P C O st i).1.length + (sweepStep P C O st i).2.length
      = st.1.length + st.2.length + 1 := by
  simp only [sweepStep]
  split_ifs with hc
  · rw [chainChangeEmit_eq]
    constructor
    · simp
    · simp
      omega
  · have hsum := sameChainPops_sum P C (O.getD i 0) st.1 st.2
    have hne : (sameChainPops P C (O.getD i 0) st.1 st.2).1 ≠ [] := by
      apply sameChainPops_fst_ne_nil
      intro h0
      rw [h0] at h
      simp at h
    have hpos := List.length_pos.mpr hne
    constructor
    · show 2 ≤ ((O.getD i 0) :: (sameChainPops P C (O.getD i 0) st.1 st.2).1).length
      simp only [List.length_cons]
      omega
    · show ((O.getD i 0) :: (sameChainPops P C (O.getD i 0) st.1 st.2).1).length
          + (sameChainPops P C (O.getD i 0) st.1 st.2).2.length
          = st.1.length + st.2.length + 1
      simp only [List.length_cons]
      omega

lemma sweep_foldl_inv (P : List Point) (C : List String) (O : List Nat) :
    ∀ (l : List Nat) (st : List Nat × List (Point × Point)), 2 ≤ st.1.length →
      2 ≤ (l.foldl (sweepStep P C O) st).1.length ∧
      (l.foldl (sweepStep P C O) st).1.length + (l.foldl (sweepStep P C O) st).2.length
        = st.1.length + st.2.length + l.length := by
  intro l
  induction l with
  | nil =>
    intro st h
    simpa using h
  | cons a t ih =>
    intro st h
    simp only [List.foldl_cons, List.length_cons]
    have h1 := sweepStep_inv P C O st a h
    have h2 := ih (sweepStep P C O st a) h1.1
    exact ⟨h2.1, by omega⟩

/-- C1: for every vertex list with at least three points the sweep
produces exactly n - 3 diagonals.  This is proved for every input of
length at least three, with no geometric hypotheses, so it holds in
particular for every valid simple CCW x-monotone polygon with pairwise
distinct vertices: the count follows from the stack bookkeeping alone. -/
theorem diagonal_count (points : List Point) (h : 3 ≤ points.length) :
    ∃ l, triangulate_x_monotone points = some l ∧ l.length = points.length - 3 := by
  obtain ⟨C, hC⟩ := find_chains_isSome points (by omega)
  have h2 : ¬ points.length < 2 := by omega
  simp only [triangulate_x_monotone, hC, if_neg h2]
  refine ⟨_, rfl, ?_⟩
  have hinv := sweep_foldl_inv points C (sweepOrder points)
    (List.range' 2 (points.length - 1 - 2))
    ([(sweepOrder points).getD 1 0, (sweepOrder points).getD 0 0], []) (by simp)
  rw [finalPops_eq]
  simp [List.length_range'] at hinv ⊢
  omega

/-- Witness for C1: the hexagon yields 6 - 3 = 3 diagonals. -/
theorem diagonal_count_witness :
    ∃ l, triangulate_x_monotone hexPts = some l ∧ l.length = hexPts.length - 3 :=
  diagonal_count hexPts (by decide)

/-- C9: for every input of at least two points the sweep terminates and
returns a diagonal list; in this total embedding, the outer loop is a
fold over finitely many indices and each inner loop consumes the stack,
so the run always produces a value. -/
theorem sweep_returns (points : List Point) (h : 2 ≤ points.length) :
    ∃ l, triangulate_x_monotone points = some l := by
  obtain ⟨C, hC⟩ := find_chains_isSome points (by omega)
  have h2 : ¬ points.length < 2 := by omega
  simp only [triangulate_x_monotone, hC, if_neg h2]
  exact ⟨_, rfl⟩

/-- Witness for C9: a two-point list already returns a diagonal list. -/
theorem sweep_returns_witness :
    ∃ l, triangulate_x_monotone [(⟨0, 0⟩ : Point), ⟨1, 0⟩] = some l :=
  sweep_returns [⟨0, 0⟩, ⟨1, 0⟩] (by decide)

/-- C10: on fewer than two points no diagonal list is returned: the
empty list already fails inside find_chains (min over an empty range),
while a one-point list passes find_chains but fails when the second
sweep-order element is demanded. -/
theorem degenerate_small_input (points : List Point) (h : points.length < 2) :
    triangulate_x_monotone points = none ∧
    (points = [] → find_chains points = none) ∧
    (points ≠ [] → (find_chains points).isSome = true) := by
  refine ⟨?_, ?_, ?_⟩
  · cases hC : find_chains points with
    | none => simp [triangulate_x_monotone, hC]
    | some c => simp [triangulate_x_monotone, hC, h]
  · intro he
    subst he
    rfl
  · intro hne
    obtain ⟨c, hc⟩ := find_chains_isSome points (fun h0 => hne (List.length_eq_zero.mp h0))
    rw [hc]
    rfl

/-- Witness for C10: the one-point list passes chain classification but
the triangulation returns no diagonal list. -/
theorem degenerate_small_input_witness :
    triangulate_x_monotone [(⟨0, 0⟩ : Point)] = none ∧
    ([(⟨0, 0⟩ : Point)] = [] → find_chains [(⟨0, 0⟩ : Point)] = none) ∧
    ([(⟨0, 0⟩ : Point)] ≠ [] → (find_chains [(⟨0, 0⟩ : Point)]).isSome = true) :=
  degenerate_small_input [⟨0, 0⟩] (by decide)

/-- C8: every three-point input produces an empty diagonal list. -/
theorem triangle_zero_diagonals (points : List Point) (h : points.length = 3) :
    triangulate_x_monotone points = some [] := by
  obtain ⟨C, hC⟩ := find_chains_isSome points (by omega)
  have h2 : ¬ points.length < 2 := by omega
  simp only [triangulate_x_monotone, hC, if_neg h2, h]
  norm_num
  simp [finalPops]

/-- Witness for C8: a concrete triangle gets zero diagonals. -/
theorem triangle_zero_diagonals_witness :
    triangulate_x_monotone cexPts = some [] :=
  triangle_zero_diagonals cexPts (by decide)

/-- C3: on the hexagon (0,0), (1,2), (3,3), (5,1), (4,-1), (2,-2) the
chain classifier labels the first four vertices UPPER and the last two
LOWER, and the triangulation returns exactly the diagonals joining
(1,2)-(2,-2), (2,-2)-(3,3) and (3,3)-(4,-1): the emitted pairs, once
each is normalised to put the smaller-x endpoint first, are exactly the
three expected unordered pairs. -/
theorem hexagon_example :
    find_chains hexPts = some ["UPPER", "UPPER", "UPPER", "UPPER", "LOWER", "LOWER"] ∧
    triangulate_x_monotone hexPts
      = some [(⟨2, -2⟩, ⟨1, 2⟩), (⟨3, 3⟩, ⟨2, -2⟩), (⟨4, -1⟩, ⟨3, 3⟩)] ∧
    (triangulate_x_monotone hexPts).map (fun l => l.map normalizeDiag)
      = some [(⟨1, 2⟩, ⟨2, -2⟩), (⟨2, -2⟩, ⟨3, 3⟩), (⟨3, 3⟩, ⟨4, -1⟩)] := by
  decide

/-!
Chain-classifier characterisation: closed forms for the two marking
walks, for the extreme-index scans, and the covering argument showing
the two walks together label every index.
-/

lemma mod_two_cases (n x : Nat) (_hn : 0 < n) (hx : x < 2 * n) :
    x % n = if x < n then x else x - n := by
  split_ifs with h
  · exact Nat.mod_eq_of_lt h
  · rw [Nat.mod_eq_sub_mod (le_of_not_lt h), Nat.mod_eq_of_lt (by omega)]

lemma getD_set_self (l : List String) (i : Nat) (v : String) (h : i < l.length) :
    (l.set i v).getD i "" = v := by
  rw [List.getD_eq_getElem?_getD, List.getElem?_set_eq_of_lt v h]
  rfl

lemma getD_set_ne (l : List String) (i j : Nat) (v : String) (h : i ≠ j) :
    (l.set i v).getD j "" = l.getD j "" := by
  rw [List.getD_eq_getElem?_getD, List.getElem?_set_ne h, List.getD_eq_getElem?_getD]

lemma setLower_length (left right : Nat) (chain : List String) (i : Nat) :
    (setLower left right chain i).length = chain.length := by
  rw [setLower]
  split_ifs <;> simp

lemma markUpper_getD (right n : Nat) (hn : 0 < n) (hr : right < n) :
    ∀ (fuel i : Nat) (chain : List String), i < n → chain.length = n →
      (right + n - i) % n < fuel →
      ∀ j, j < n →
        (markUpper right n fuel chain i).getD j ""
          = if (j + n - i) % n ≤ (right + n - i) % n then "UPPER"
            else chain.getD j "" := by
  intro fuel
  induction fuel with
  | zero =>
    intro i chain _ _ hfuel
    exact absurd hfuel (Nat.not_lt_zero _)
  | succ f ih =>
    intro i chain hi hlen hfuel j hj
    rw [markUpper]
    have e1 := mod_two_cases n (right + n - i) hn (by omega)
    have e_j := mod_two_cases n (j + n - i) hn (by omega)
    by_cases hir : i = right
    · rw [if_pos hir]
      have e0 : (right + n - i) % n = 0 := by
        have : right + n - i = n := by omega
        rw [this, Nat.mod_self]
      rw [e0]
      by_cases hji : j = i
      · subst hji
        rw [if_pos (by split_ifs at e_j <;> omega)]
        exact getD_set_self chain j "UPPER" (by omega)
      · rw [if_neg (by split_ifs at e_j <;> omega)]
        exact getD_set_ne chain i j "UPPER" (fun h => hji h.symm)
    · rw [if_neg hir]
      by_cases hin : i + 1 < n
      · have hmod : (i + 1) % n = i + 1 := Nat.mod_eq_of_lt hin
        rw [hmod]
        have e2 := mod_two_cases n (right + n - (i + 1)) hn (by omega)
        rw [ih (i + 1) (chain.set i "UPPER") hin (by simp [hlen])
          (by split_ifs at e1 e2 <;> omega) j hj]
        have e_j1 := mod_two_cases n (j + n - (i + 1)) hn (by omega)
        by_cases hji : j = i
        · subst hji
          rw [if_neg (by split_ifs at e1 e2 e_j1 <;> omega),
            if_pos (by split_ifs at e1 e_j <;> omega)]
          exact getD_set_self chain j "UPPER" (by omega)
        · rw [getD_set_ne chain i j "UPPER" (fun h => hji h.symm)]
          by_cases hc : (j + n - i) % n ≤ (right + n - i) % n
          · rw [if_pos hc, if_pos (by split_ifs at e1 e2 e_j e_j1 <;> omega)]
          · rw [if_neg hc, if_neg (by split_ifs at e1 e2 e_j e_j1 <;> omega)]
      · have hi1 : i + 1 = n := by omega
        have hmod : (i + 1) % n = 0 := by rw [hi1, Nat.mod_self]
        rw [hmod]
        have e2 := mod_two_cases n (right + n - 0) hn (by omega)
        rw [ih 0 (chain.set i "UPPER") hn (by simp [hlen])
          (by split_ifs at e1 e2 <;> omega) j hj]
        have e_j1 := mod_two_cases n (j + n - 0) hn (by omega)
        by_cases hji : j = i
        · subst hji
          rw [if_neg (by split_ifs at e1 e2 e_j1 <;> omega),
            if_pos (by split_ifs at e1 e_j <;> omega)]
          exact getD_set_self chain j "UPPER" (by omega)
        · rw [getD_set_ne chain i j "UPPER" (fun h => hji h.symm)]
          by_cases hc : (j + n - i) % n ≤ (right + n - i) % n
          · rw [if_pos hc, if_pos (by split_ifs at e1 e2 e_j e_j1 <;> omega)]
          · rw [if_neg hc, if_neg (by split_ifs at e1 e2 e_j e_j1 <;> omega)]

lemma setLower_getD_ne (left right : Nat) (chain : List String) (i j : Nat) (hne : j ≠ i) :
    (setLower left right chain i).getD j "" = chain.getD j "" := by
  rw [setLower]
  split_ifs with h1
  · exact getD_set_ne chain i j "LOWER" (fun h => hne h.symm)
  · rfl

lemma setLower_getD_self_mid (left right : Nat) (chain : List String) (i : Nat)
    (h1 : i ≠ left) (h2 : i ≠ right) (hi : i < chain.length) :
    (setLower left right chain i).getD i "" = "LOWER" := by
  rw [setLower, if_pos ⟨h1, h2⟩]
  exact getD_set_self chain i "LOWER" hi

lemma setLower_getD_self_ext (left right : Nat) (chain : List String) (i : Nat)
    (h : i = left ∨ i = right) :
    (setLower left right chain i).getD i "" = chain.getD i "" := by
  rw [setLower, if_neg (by tauto)]

lemma markLower_getD (left right n : Nat) (hn : 0 < n) (hl : left < n) :
    ∀ (fuel i : Nat) (chain : List String), i < n → chain.length = n →
      (left + n - i) % n < fuel →
      ∀ j, j < n →
        (markLower left right n fuel chain i).getD j ""
          = if (j + n - i) % n ≤ (left + n - i) % n ∧ j ≠ left ∧ j ≠ right then "LOWER"
            else chain.getD j "" := by
  intro fuel
  induction fuel with
  | zero =>
    intro i chain _ _ hfuel
    exact absurd hfuel (Nat.not_lt_zero _)
  | succ f ih =>
    intro i chain hi hlen hfuel j hj
    rw [markLower]
    have e1 := mod_two_cases n (left + n - i) hn (by omega)
    have e_j := mod_two_cases n (j + n - i) hn (by omega)
    by_cases hil : i = left
    · rw [if_pos hil]
      have e0 : (left + n - i) % n = 0 := by
        have : left + n - i = n := by omega
        rw [this, Nat.mod_self]
      have hG : ¬ ((j + n - i) % n ≤ (left + n - i) % n ∧ j ≠ left ∧ j ≠ right) := by
        rintro ⟨c1, c2, c3⟩
        rw [e0] at c1
        split_ifs at e_j <;> omega
      rw [if_neg hG]
      by_cases hji : j = i
      · subst hji
        exact setLower_getD_self_ext left right chain j (Or.inl hil)
      · exact setLower_getD_ne left right chain i j hji
    · rw [if_neg hil]
      by_cases hin : i + 1 < n
      · have hmod : (i + 1) % n = i + 1 := Nat.mod_eq_of_lt hin
        rw [hmod]
        have e2 := mod_two_cases n (left + n - (i + 1)) hn (by omega)
        rw [ih (i + 1) (setLower left right chain i) hin
          (by rw [setLower_length]; exact hlen)
          (by split_ifs at e1 e2 <;> omega) j hj]
        by_cases hji : j = i
        · subst hji
          have e_j1 := mod_two_cases n (j + n - (j + 1)) hn (by omega)
          have hA : ¬ ((j + n - (j + 1)) % n ≤ (left + n - (j + 1)) % n ∧
              j ≠ left ∧ j ≠ right) := by
            rintro ⟨c1, c2, c3⟩
            split_ifs at e1 e2 e_j1 <;> omega
          rw [if_neg hA]
          have ez : (j + n - j) % n = 0 := by
            have : j + n - j = n := by omega
            rw [this, Nat.mod_self]
          by_cases hirt : j = right
          · have hG : ¬ ((j + n - j) % n ≤ (left + n - j) % n ∧ j ≠ left ∧ j ≠ right) := by
              rintro ⟨c1, c2, c3⟩
              exact c3 hirt
            rw [if_neg hG]
            exact setLower_getD_self_ext left right chain j (Or.inr hirt)
          · have hG : (j + n - j) % n ≤ (left + n - j) % n ∧ j ≠ left ∧ j ≠ right :=
              ⟨by rw [ez]; exact Nat.zero_le _, hil, hirt⟩
            rw [if_pos hG]
            exact setLower_getD_self_mid left right chain j hil hirt (by omega)
        · rw [setLower_getD_ne left right chain i j hji]
          have e_j1 := mod_two_cases n (j + n - (i + 1)) hn (by omega)
          by_cases hG : (j + n - i) % n ≤ (left + n - i) % n ∧ j ≠ left ∧ j ≠ right
          · obtain ⟨hG1, hG2, hG3⟩ := hG
            have hA : (j + n - (i + 1)) % n ≤ (left + n - (i + 1)) % n ∧
                j ≠ left ∧ j ≠ right :=
              ⟨by split_ifs at e1 e2 e_j e_j1 <;> omega, hG2, hG3⟩
            rw [if_pos hA, if_pos ⟨hG1, hG2, hG3⟩]
          · have hA : ¬ ((j + n - (i + 1)) % n ≤ (left + n - (i + 1)) % n ∧
                j ≠ left ∧ j ≠ right) := by
              rintro ⟨c1, c2, c3⟩
              exact hG ⟨by split_ifs at e1 e2 e_j e_j1 <;> omega, c2, c3⟩
            rw [if_neg hA, if_neg hG]
      · have hi1 : i + 1 = n := by omega
        have hmod : (i + 1) % n = 0 := by rw [hi1, Nat.mod_self]
        rw [hmod]
        have e2 := mod_two_cases n (left + n - 0) hn (by omega)
        rw [ih 0 (setLower left right chain i) hn
          (by rw [setLower_length]; exact hlen)
          (by split_ifs at e1 e2 <;> omega) j hj]
        by_cases hji : j = i
        · subst hji
          have e_j1 := mod_two_cases n (j + n - 0) hn (by omega)
          have hA : ¬ ((j + n - 0) % n ≤ (left + n - 0) % n ∧
              j ≠ left ∧ j ≠ right) := by
            rintro ⟨c1, c2, c3⟩
            split_ifs at e1 e2 e_j1 <;> omega
          rw [if_neg hA]
          have ez : (j + n - j) % n = 0 := by
            have : j + n - j = n := by omega
            rw [this, Nat.mod_self]
          by_cases hirt : j = right
          · have hG : ¬ ((j + n - j) % n ≤ (left + n - j) % n ∧ j ≠ left ∧ j ≠ right) := by
              rintro ⟨c1, c2, c3⟩
              exact c3 hirt
            rw [if_neg hG]
            exact setLower_getD_self_ext left right chain j (Or.inr hirt)
          · have hG : (j + n - j) % n ≤ (left + n - j) % n ∧ j ≠ left ∧ j ≠ right :=
              ⟨by rw [ez]; exact Nat.zero_le _, hil, hirt⟩
            rw [if_pos hG]
            exact setLower_getD_self_mid left right chain j hil hirt (by omega)
        · rw [setLower_getD_ne left right chain i j hji]
          have e_j1 := mod_two_cases n (j + n - 0) hn (by omega)
          by_cases hG : (j + n - i) % n ≤ (left + n - i) % n ∧ j ≠ left ∧ j ≠ right
          · obtain ⟨hG1, hG2, hG3⟩ := hG
            have hA : (j + n - 0) % n ≤ (left + n - 0) % n ∧
                j ≠ left ∧ j ≠ right :=
              ⟨by split_ifs at e1 e2 e_j e_j1 <;> omega, hG2, hG3⟩
            rw [if_pos hA, if_pos ⟨hG1, hG2, hG3⟩]
          · have hA : ¬ ((j + n - 0) % n ≤ (left + n - 0) % n ∧
                j ≠ left ∧ j ≠ right) := by
              rintro ⟨c1, c2, c3⟩
              exact hG ⟨by split_ifs at e1 e2 e_j e_j1 <;> omega, c2, c3⟩
            rw [if_neg hA, if_neg hG]

lemma argminAux_succ (points : List Point) (k : Nat) :
    argminAux points (k + 1)
      = if (nthP points k).x < (nthP points (argminAux points k)).x then k
        else argminAux points k := by
  simp [argminAux, List.range_succ]

lemma argmaxAux_succ (points : List Point) (k : Nat) :
    argmaxAux points (k + 1)
      = if (nthP points (argmaxAux points k)).x < (nthP points k).x then k
        else argmaxAux points k := by
  simp [argmaxAux, List.range_succ]

lemma argminAux_spec (points : List Point) :
    ∀ k, (argminAux points k = 0 ∨ argminAux points k < k) ∧
      (∀ i, i < k → (nthP points (argminAux points k)).x ≤ (nthP points i).x) ∧
      (∀ j, j < argminAux points k → (nthP points (argminAux points k)).x < (nthP points j).x) := by
  intro k
  induction k with
  | zero =>
    refine ⟨Or.inl rfl, ?_, ?_⟩
    · intro i hi
      exact absurd hi (Nat.not_lt_zero i)
    · intro j hj
      rw [show argminAux points 0 = 0 from rfl] at hj
      exact absurd hj (Nat.not_lt_zero j)
  | succ k ih =>
    obtain ⟨ihb, ihmin, ihfirst⟩ := ih
    rw [argminAux_succ]
    split_ifs with hlt
    · refine ⟨Or.inr (by omega), ?_, ?_⟩
      · intro i hi
        rcases Nat.lt_succ_iff_lt_or_eq.mp hi with h | h
        · exact le_trans (le_of_lt hlt) (ihmin i h)
        · subst h
          exact le_refl _
      · intro j hj
        exact lt_of_lt_of_le hlt (ihmin j hj)
    · refine ⟨?_, ?_, ihfirst⟩
      · rcases ihb with h | h
        · exact Or.inl h
        · exact Or.inr (by omega)
      · intro i hi
        rcases Nat.lt_succ_iff_lt_or_eq.mp hi with h | h
        · exact ihmin i h
        · subst h
          exact le_of_not_lt hlt

lemma argmaxAux_spec (points : List Point) :
    ∀ k, (argmaxAux points k = 0 ∨ argmaxAux points k < k) ∧
      (∀ i, i < k → (nthP points i).x ≤ (nthP points (argmaxAux points k)).x) ∧
      (∀ j, j < argmaxAux points k → (nthP points j).x < (nthP points (argmaxAux points k)).x) := by
  intro k
  induction k with
  | zero =>
    refine ⟨Or.inl rfl, ?_, ?_⟩
    · intro i hi
      exact absurd hi (Nat.not_lt_zero i)
    · intro j hj
      rw [show argmaxAux points 0 = 0 from rfl] at hj
      exact absurd hj (Nat.not_lt_zero j)
  | succ k ih =>
    obtain ⟨ihb, ihmax, ihfirst⟩ := ih
    rw [argmaxAux_succ]
    split_ifs with hlt
    · refine ⟨Or.inr (by omega), ?_, ?_⟩
      · intro i hi
        rcases Nat.lt_succ_iff_lt_or_eq.mp hi with h | h
        · exact le_trans (ihmax i h) (le_of_lt hlt)
        · subst h
          exact le_refl _
      · intro j hj
        exact lt_of_le_of_lt (ihmax j hj) hlt
    · refine ⟨?_, ?_, ihfirst⟩
      · rcases ihb with h | h
        · exact Or.inl h
        · exact Or.inr (by omega)
      · intro i hi
        rcases Nat.lt_succ_iff_lt_or_eq.mp hi with h | h
        · exact ihmax i h
        · subst h
          exact le_of_not_lt hlt

lemma argminX_spec (points : List Point) (h : points.length ≠ 0) :
    argminX points < points.length ∧
    (∀ i, i < points.length → (nthP points (argminX points)).x ≤ (nthP points i).x) ∧
    (∀ j, j < argminX points → (nthP points (argminX points)).x < (nthP points j).x) := by
  have hs := argminAux_spec points points.length
  have he : argminX points = argminAux points points.length := rfl
  rw [he]
  refine ⟨?_, hs.2.1, hs.2.2⟩
  rcases hs.1 with h0 | h0
  · rw [h0]
    omega
  · exact h0

lemma argmaxX_spec (points : List Point) (h : points.length ≠ 0) :
    argmaxX points < points.length ∧
    (∀ i, i < points.length → (nthP points i).x ≤ (nthP points (argmaxX points)).x) ∧
    (∀ j, j < argmaxX points → (nthP points j).x < (nthP points (argmaxX points)).x) := by
  have hs := argmaxAux_spec points points.length
  have he : argmaxX points = argmaxAux points points.length := rfl
  rw [he]
  refine ⟨?_, hs.2.1, hs.2.2⟩
  rcases hs.1 with h0 | h0
  · rw [h0]
    omega
  · exact h0

lemma markUpper_length (right n : Nat) :
    ∀ (fuel : Nat) (chain : List String) (i : Nat),
      (markUpper right n fuel chain i).length = chain.length := by
  intro fuel
  induction fuel with
  | zero => intro chain i; rfl
  | succ f ih =>
    intro chain i
    rw [markUpper]
    split_ifs
    · simp
    · rw [ih]
      simp

lemma cover_arith (n l r j : Nat) (hn : 0 < n) (hl : l < n) (hr : r < n) (hj : j < n)
    (hlr : l ≠ r) (hjl : j ≠ l) (hjr : j ≠ r)
    (hb : ¬ (j + n - r) % n ≤ (l + n - r) % n) :
    (j + n - l) % n ≤ (r + n - l) % n := by
  have e1 := mod_two_cases n (j + n - r) hn (by omega)
  have e2 := mod_two_cases n (l + n - r) hn (by omega)
  have e3 := mod_two_cases n (j + n - l) hn (by omega)
  have e4 := mod_two_cases n (r + n - l) hn (by omega)
  split_ifs at e1 e2 e3 e4 <;> omega

/-- C6: for a nonempty point list whose first minimum-x index differs
from its first maximum-x index, find_chains succeeds; the chosen left
index is the first index attaining the minimum x (every earlier index
has a strictly larger x, also under ties), the chosen right index is the
first index attaining the maximum x, both extremes are labelled UPPER,
and every index receives a label that is either UPPER or LOWER. -/
theorem find_chains_labels (points : List Point)
    (h0 : points.length ≠ 0)
    (hne : argminX points ≠ argmaxX points) :
    ∃ chain, find_chains points = some chain ∧
      argminX points < points.length ∧
      (∀ i, i < points.length → (nthP points (argminX points)).x ≤ (nthP points i).x) ∧
      (∀ j, j < argminX points → (nthP points (argminX points)).x < (nthP points j).x) ∧
      argmaxX points < points.length ∧
      (∀ i, i < points.length → (nthP points i).x ≤ (nthP points (argmaxX points)).x) ∧
      (∀ j, j < argmaxX points → (nthP points j).x < (nthP points (argmaxX points)).x) ∧
      chain.getD (argminX points) "" = "UPPER" ∧
      chain.getD (argmaxX points) "" = "UPPER" ∧
      (∀ i, i < points.length → chain.getD i "" = "UPPER" ∨ chain.getD i "" = "LOWER") := by
  have hminS := argminX_spec points h0
  have hmaxS := argmaxX_spec points h0
  have hn : 0 < points.length := by omega
  set n := points.length with hnn
  set L := argminX points with hLd
  set R := argmaxX points with hRd
  have hUlen : (markUpper R n n (List.replicate n "") L).length = n := by
    rw [markUpper_length]
    simp
  have hU := markUpper_getD R n hn hmaxS.1 n L (List.replicate n "") hminS.1
    (by simp) (Nat.mod_lt _ hn)
  have hLo := markLower_getD L R n hn hminS.1 n R
    (markUpper R n n (List.replicate n "") L) hmaxS.1 hUlen (Nat.mod_lt _ hn)
  have ezL : (L + n - L) % n = 0 := by
    have : L + n - L = n := by omega
    rw [this, Nat.mod_self]
  refine ⟨markLower L R n n (markUpper R n n (List.replicate n "") L) R,
    by simp only [find_chains, if_neg h0], hminS.1, hminS.2.1, hminS.2.2,
    hmaxS.1, hmaxS.2.1, hmaxS.2.2, ?_, ?_, ?_⟩
  · rw [hLo L hminS.1, if_neg (fun hcon => hcon.2.1 rfl), hU L hminS.1,
      if_pos (by rw [ezL]; exact Nat.zero_le _)]
  · rw [hLo R hmaxS.1, if_neg (fun hcon => hcon.2.2 rfl), hU R hmaxS.1,
      if_pos (le_refl _)]
  · intro i hi
    rw [hLo i hi]
    by_cases hc : (i + n - R) % n ≤ (L + n - R) % n ∧ i ≠ L ∧ i ≠ R
    · rw [if_pos hc]
      exact Or.inr rfl
    · rw [if_neg hc, hU i hi]
      have hcov : (i + n - L) % n ≤ (R + n - L) % n := by
        by_cases hil : i = L
        · subst hil
          rw [ezL]
          exact Nat.zero_le _
        · by_cases hir : i = R
          · subst hir
            exact le_refl _
          · exact cover_arith n L R i hn hminS.1 hmaxS.1 hi hne hil hir
              (fun hb => hc ⟨hb, hil, hir⟩)
      rw [if_pos hcov]
      exact Or.inl rfl


/-- Witness for C6: the hexagon, whose extremes are indices 0 and 3. -/
theorem find_chains_labels_witness :
    ∃ chain, find_chains hexPts = some chain ∧
      argminX hexPts < hexPts.length ∧
      (∀ i, i < hexPts.length → (nthP hexPts (argminX hexPts)).x ≤ (nthP hexPts i).x) ∧
      (∀ j, j < argminX hexPts → (nthP hexPts (argminX hexPts)).x < (nthP hexPts j).x) ∧
      argmaxX hexPts < hexPts.length ∧
      (∀ i, i < hexPts.length → (nthP hexPts i).x ≤ (nthP hexPts (argmaxX hexPts)).x) ∧
      (∀ j, j < argmaxX hexPts → (nthP hexPts j).x < (nthP hexPts (argmaxX hexPts)).x) ∧
      chain.getD (argminX hexPts) "" = "UPPER" ∧
      chain.getD (argmaxX hexPts) "" = "UPPER" ∧
      (∀ i, i < hexPts.length → chain.getD i "" = "UPPER" ∨ chain.getD i "" = "LOWER") :=
  find_chains_labels hexPts (by decide) (by decide)
